import Mathlib

/-!
Verification of the WIP-metrics core of the Custom-Jira-Kanban-Metrics
repository.

This file gives a shallow embedding of the functions the claims are about:
`parse_wip_ranges` and `get_issues_in_progress_in_month` from
`src/modules/metrics_calculations.py`, and the daily WIP census loop shared by
`plot_daily_wip_time_series` / `show_daily_wip_table` in
`src/modules/visualizations.py`.  Theorems about the embedding settle the
frozen claims.

Modelling conventions:
* Time is `Int`, in microseconds since the epoch, matching the microsecond
  resolution of the pandas timestamps used throughout the source.
* Python `None` becomes `Option.none`; dictionary fields that may be absent
  are `Option` fields.
* The dictionaries appended to `wip_records` carry the keys
  `key, summary, assignee, start, end`; `end` is a Lean keyword, so the
  structure field is called `stop`.  The extra `kind` field is
  instrumentation recording which of the three `append` sites of
  `parse_wip_ranges` produced the record (closed transition pair,
  still-in-progress open interval, or the fallback branch); the fallback
  site is the one the source also reports through `missing_details`, and the
  spec calls such records `inferred`.
* Raising an exception is modelled by `Except.error`.
-/

/-- One day in microseconds (`pd.Timedelta(days=1)`). -/
def DAY : Int := 86400000000

/-- Which of the three `wip_records.append` sites of `parse_wip_ranges`
produced a record.  `fallback` records are exactly the ones the source also
reports in `missing_details` (the inferred intervals of the spec). -/
inductive EmitKind where
  | closed
  | stillOpen
  | fallback
  deriving DecidableEq, Repr

/-- One dict appended to `wip_records` (source keys
`key, summary, assignee, start, end`; `end` is spelled `stop`). -/
structure WipRecord where
  key : String
  summary : String
  assignee : Option String
  start : Int
  stop : Int
  kind : EmitKind
  deriving DecidableEq, Repr

/-- One element of a changelog entry's `items` list.  Only the keys read by
the source (`field`, `fromString`, `toString`) are modelled. -/
structure ChangelogItem where
  field : String
  fromString : Option String
  toString : Option String
  deriving DecidableEq, Repr

/-- One element of `issue["changelog"]["histories"]`.  `created` is `none`
when the entry has no usable timestamp (the missing-timestamp case of the
claims; in Python, `sorted(changelog, key=lambda x: x["created"])` raises
`KeyError` for it). -/
structure ChangelogEntry where
  created : Option Int
  items : List ChangelogItem
  deriving DecidableEq, Repr

/-- One issue record, with exactly the fields `parse_wip_ranges` reads:
`key`, `fields.summary`, `fields.assignee.displayName`,
`fields.status.name`, `fields.created`, `changelog.histories`. -/
structure Issue where
  key : String
  summary : String
  assignee : Option String
  status : Option String
  created : Int
  changelog : List ChangelogEntry
  deriving DecidableEq, Repr

/-- Key extraction performed by `sorted(changelog, key=lambda x: x["created"])`:
every entry's timestamp is extracted up front, and a missing timestamp makes
the whole extraction fail (Python raises `KeyError` before any comparison). -/
def entryTimestamps : List ChangelogEntry →
    Option (List (Int × List ChangelogItem))
  | [] => some []
  | e :: rest =>
    match e.created, entryTimestamps rest with
    | some t, some l => some ((t, e.items) :: l)
    | _, _ => none

/-- Insert an entry into an already sorted list, after all entries with a
smaller-or-equal timestamp (this gives the stable sort that Python's
`sorted` performs). -/
def insertEntry (x : Int × List ChangelogItem) :
    List (Int × List ChangelogItem) → List (Int × List ChangelogItem)
  | [] => [x]
  | y :: ys => if y.1 ≤ x.1 then y :: insertEntry x ys else x :: y :: ys

/-- Stable ascending sort by timestamp, modelling
`sorted(changelog, key=lambda x: x["created"])`. -/
def sortEntries (l : List (Int × List ChangelogItem)) :
    List (Int × List ChangelogItem) :=
  l.foldl (fun acc x => insertEntry x acc) []

/-- The mutable locals of the per-issue changelog walk:
`in_progress_start`, `in_progress_end`, and the records emitted so far.
Note that the source never resets `in_progress_end` to `None` after it is
first assigned. -/
structure WalkState where
  inProgressStart : Option Int
  inProgressEnd : Option Int
  recs : List WipRecord
  deriving DecidableEq, Repr

/-- The body of the inner `for item in entry.get("items", [])` loop of
`parse_wip_ranges` (lines 293-310 of `metrics_calculations.py`), for one
item of an entry whose timestamp is `timestamp`. -/
def processItem (issue : Issue) (timestamp : Int) (s : WalkState)
    (item : ChangelogItem) : WalkState :=
  if item.field = "status" then
    if item.toString = some "In Progress" ∧ s.inProgressStart = none then
      { s with inProgressStart := some timestamp }
    else
      match s.inProgressStart with
      | some st =>
        if item.fromString = some "In Progress" then
          { inProgressStart := none
            inProgressEnd := some timestamp
            recs := s.recs ++
              [{ key := issue.key, summary := issue.summary,
                 assignee := issue.assignee, start := st, stop := timestamp,
                 kind := EmitKind.closed }] }
        else s
      | none => s
  else s

/-- Process one changelog entry: run `processItem` over its items. -/
def processEntry (issue : Issue) (s : WalkState)
    (e : Int × List ChangelogItem) : WalkState :=
  e.2.foldl (processItem issue e.1) s

/-- The full changelog walk of one issue, starting from
`in_progress_start = in_progress_end = None`. -/
def walkChangelog (issue : Issue) (entries : List (Int × List ChangelogItem)) :
    WalkState :=
  entries.foldl (processEntry issue) ⟨none, none, []⟩

/-- The accumulators of `parse_wip_ranges`: `wip_records`, `seen_keys` and
`missing_details`.  The Python `set` of keys is modelled as a list queried
only through membership. -/
structure BatchState where
  wip_records : List WipRecord
  seen_keys : List String
  missing_details : List (String × String)
  deriving DecidableEq, Repr

/-- The record the `# Still in progress` block (lines 313-321) appends:
`[in_progress_start, end_date]`. -/
def openRecord (issue : Issue) (end_date : Int) (st : Int) : WipRecord :=
  { key := issue.key, summary := issue.summary, assignee := issue.assignee,
    start := st, stop := end_date, kind := EmitKind.stillOpen }

/-- The emission condition of the `# Still in progress` block: an entry
pointer is set, `in_progress_end` was never set, and the current status is
"In Progress". -/
def stillOpenRecord (issue : Issue) (end_date : Int) (w : WalkState) :
    List WipRecord :=
  match w.inProgressStart, w.inProgressEnd with
  | some st, none =>
    if issue.status = some "In Progress" then [openRecord issue end_date st]
    else []
  | _, _ => []

/-- The record emitted by the `# Fallback logic` block (lines 324-334):
`start = max(created_date, end_date - pd.Timedelta(days=30))`. -/
def fallbackRecord (issue : Issue) (end_date : Int) : WipRecord :=
  { key := issue.key, summary := issue.summary, assignee := issue.assignee,
    start := max issue.created (end_date - 30 * DAY), stop := end_date,
    kind := EmitKind.fallback }

/-- State of the accumulators after the `# Still in progress` block of one
issue ran: the walked records (and the still-open record, when emitted) are
appended, and the key is added to `seen_keys` exactly when the still-open
record was emitted. -/
def afterOpenState (end_date : Int) (acc : BatchState) (issue : Issue)
    (w : WalkState) : BatchState :=
  { wip_records := acc.wip_records ++ w.recs ++ stillOpenRecord issue end_date w
    seen_keys := if stillOpenRecord issue end_date w = [] then acc.seen_keys
                 else issue.key :: acc.seen_keys
    missing_details := acc.missing_details }

/-- The `# Fallback logic` block (lines 324-334): when the current status is
"In Progress" and the key was not seen, append the fallback record, mark the
key seen, and add the diagnostic entry. -/
def applyFallback (end_date : Int) (issue : Issue) (st : BatchState) :
    BatchState :=
  if issue.status = some "In Progress" ∧ issue.key ∉ st.seen_keys then
    { wip_records := st.wip_records ++ [fallbackRecord issue end_date]
      seen_keys := issue.key :: st.seen_keys
      missing_details := st.missing_details ++ [(issue.key, issue.summary)] }
  else st

/-- The body of the outer `for issue in issues` loop of `parse_wip_ranges`:
sort the changelog (raising for a missing timestamp), walk it, then run the
still-in-progress block and the fallback block against the shared
accumulators. -/
def processIssue (end_date : Int) (acc : BatchState) (issue : Issue) :
    Except String BatchState :=
  match entryTimestamps issue.changelog with
  | none => Except.error "KeyError: created"
  | some entries =>
    Except.ok (applyFallback end_date issue
      (afterOpenState end_date acc issue
        (walkChangelog issue (sortEntries entries))))

/-- The outer loop of `parse_wip_ranges` over all issues.  An exception from
one issue propagates and aborts the whole batch, exactly as in Python. -/
def parse_wip_ranges_loop (end_date : Int) :
    List Issue → BatchState → Except String BatchState
  | [], acc => Except.ok acc
  | issue :: rest, acc =>
    match processIssue end_date acc issue with
    | Except.error msg => Except.error msg
    | Except.ok acc2 => parse_wip_ranges_loop end_date rest acc2

/-- `parse_wip_ranges(issues, end_date)` from
`src/modules/metrics_calculations.py` (lines 260-336): returns
`(wip_records, missing_details)`. -/
def parse_wip_ranges (issues : List Issue) (end_date : Int) :
    Except String (List WipRecord × List (String × String)) :=
  match parse_wip_ranges_loop end_date issues ⟨[], [], []⟩ with
  | Except.error msg => Except.error msg
  | Except.ok acc => Except.ok (acc.wip_records, acc.missing_details)

/-- One row of the dataframe built by `get_issues_in_progress_in_month`.
`days_in_progress = (end - start).days`, pandas `Timedelta.days`, i.e. the
floor of the microsecond difference divided by one day. -/
structure MonthRecord where
  key : String
  summary : String
  assignee : Option String
  in_progress_start : Int
  in_progress_end : Int
  days_in_progress : Int
  deriving DecidableEq, Repr

/-- Build the matched row for one WIP record (lines 361-368). -/
def mkMonthRecord (r : WipRecord) : MonthRecord :=
  { key := r.key, summary := r.summary, assignee := r.assignee,
    in_progress_start := r.start, in_progress_end := r.stop,
    days_in_progress := Int.fdiv (r.stop - r.start) DAY }

/-- The `matched` list built by the selection loop of
`get_issues_in_progress_in_month` (lines 358-368): a record is kept iff
`record["start"] <= end_of_month and record["end"] >= start_of_month`. -/
def monthMatches (wip_records : List WipRecord)
    (start_of_month end_of_month : Int) : List MonthRecord :=
  match wip_records with
  | [] => []
  | r :: rest =>
    if r.start ≤ end_of_month ∧ r.stop ≥ start_of_month then
      mkMonthRecord r :: monthMatches rest start_of_month end_of_month
    else monthMatches rest start_of_month end_of_month

/-- Insert a row after all rows with a smaller-or-equal
`in_progress_start` (stable insertion, deterministic model of
`df.sort_values("in_progress_start")`). -/
def insertMonthRecord (x : MonthRecord) : List MonthRecord → List MonthRecord
  | [] => [x]
  | y :: ys =>
    if y.in_progress_start ≤ x.in_progress_start then y :: insertMonthRecord x ys
    else x :: y :: ys

/-- Deterministic ascending sort by `in_progress_start`. -/
def sortMonthRecords (l : List MonthRecord) : List MonthRecord :=
  l.foldl (fun acc x => insertMonthRecord x acc) []

/-- `get_issues_in_progress_in_month(wip_records, target_month_str)` (lines
340-372).  The source derives `start_of_month` / `end_of_month` from the
`"YYYY-MM"` string via `pd.Period`; that calendar plumbing is outside the
core, so the two window bounds are taken as explicit instants here.  When
`matched` is empty, `pd.DataFrame(matched)` has no columns at all and
`df.sort_values("in_progress_start", inplace=True)` raises `KeyError`, which
is modelled as `Except.error`. -/
def get_issues_in_progress_in_month (wip_records : List WipRecord)
    (start_of_month end_of_month : Int) : Except String (List MonthRecord) :=
  let matched := monthMatches wip_records start_of_month end_of_month
  if matched = [] then Except.error "KeyError: in_progress_start"
  else Except.ok (sortMonthRecords matched)

/-- `datetime.now(timezone.utc).replace(hour=23, minute=59, second=59,
microsecond=999999)`: the last microsecond of the calendar day containing
`t`. -/
def replaceEndOfDay (t : Int) : Int :=
  Int.fdiv t DAY * DAY + (DAY - 1)

/-- `pd.date_range(start=end_date - timedelta(days=days_lookback),
end=end_date, freq='D')`: `days_lookback + 1` instants, one per calendar
day, each carrying the time of day of `end_date`. -/
def daily_date_range (end_date : Int) (days_lookback : Nat) : List Int :=
  (List.range (days_lookback + 1)).map
    (fun k : Nat => end_date - (days_lookback : Int) * DAY + (k : Int) * DAY)

/-- The inner counting test of the census loops (`if start <= day <= end`):
number of records whose interval contains the instant `day`. -/
def wip_count_on (wip_records : List WipRecord) (day : Int) : Nat :=
  (wip_records.filter (fun r => decide (r.start ≤ day ∧ day ≤ r.stop))).length

/-- The daily WIP census computed identically by
`plot_daily_wip_time_series` and `show_daily_wip_table` (lines 405-422 and
450-464 of `visualizations.py`).  The source reads the clock internally
(`end_date = datetime.now(...).replace(hour=23, ...)`); the instant read
from the clock is the explicit parameter `now` here. -/
def daily_wip_counts (wip_records : List WipRecord) (days_lookback : Nat)
    (now : Int) : List (Int × Nat) :=
  (daily_date_range (replaceEndOfDay now) days_lookback).map
    (fun d => (d, wip_count_on wip_records d))

/-! ## Concrete inputs used by the counterexamples and witnesses -/

/-- A status transition into "In Progress". -/
def enterItem : ChangelogItem :=
  { field := "status", fromString := some "To Do", toString := some "In Progress" }

/-- A status transition out of "In Progress". -/
def leaveItem : ChangelogItem :=
  { field := "status", fromString := some "In Progress", toString := some "Done" }

/-- Issue for the C1 scenario: changelog `[enter@10d, leave@12d, enter@14d]`,
current status "In Progress". -/
def issueEnterLeaveEnter : Issue :=
  { key := "A", summary := "s", assignee := none, status := some "In Progress",
    created := 0,
    changelog := [
      { created := some (10 * DAY), items := [enterItem] },
      { created := some (12 * DAY), items := [leaveItem] },
      { created := some (14 * DAY), items := [enterItem] }] }

/-- Issue whose changelog is a single completed stay `[enter@10d, leave@12d]`
but whose current status is "In Progress". -/
def issueEnterLeave : Issue :=
  { key := "B", summary := "s", assignee := none, status := some "In Progress",
    created := 0,
    changelog := [
      { created := some (10 * DAY), items := [enterItem] },
      { created := some (12 * DAY), items := [leaveItem] }] }

/-- Issue whose only changelog entry has no timestamp. -/
def issueMissingTimestamp : Issue :=
  { key := "BAD", summary := "s2", assignee := none, status := some "Done",
    created := 0, changelog := [{ created := none, items := [enterItem] }] }

/-- Issue with an empty changelog, created one day after the observation end
used in the C9 counterexample. -/
def issueCreatedLate : Issue :=
  { key := "C", summary := "s", assignee := none, status := some "In Progress",
    created := DAY, changelog := [] }

/-- The interval `[5, 10]` of the boundary-overlap examples. -/
def intervalFiveTen : WipRecord :=
  { key := "EX", summary := "ex", assignee := none, start := 5, stop := 10,
    kind := EmitKind.closed }

/-- A closed record spanning the three calendar days 0, 1 and 2
(midnight of day 0 to midnight of day 2). -/
def threeDayRecord : WipRecord :=
  { key := "X", summary := "x", assignee := none, start := 0, stop := 2 * DAY,
    kind := EmitKind.closed }

/-- The closed record extraction emits for `issueEnterLeave`. -/
def closedRecordB : WipRecord :=
  { key := "B", summary := "s", assignee := none, start := 10 * DAY,
    stop := 12 * DAY, kind := EmitKind.closed }

/-- The fallback record extraction emits for `issueEnterLeave` at
`end_date = 20` days. -/
def fallbackRecordB : WipRecord :=
  { key := "B", summary := "s", assignee := none, start := 0,
    stop := 20 * DAY, kind := EmitKind.fallback }

/-- Number of fallback records carrying a given issue key. -/
def fallbackCount (k : String) (recs : List WipRecord) : Nat :=
  (recs.filter (fun r => decide (r.kind = EmitKind.fallback ∧ r.key = k))).length

/-- Emission-order relation between an earlier record `a` and a later record
`b` in the output list: if the later one is a fallback record, no earlier
record with the same key can be a still-open or fallback record. -/
def EmitOrder (a b : WipRecord) : Prop :=
  b.kind = EmitKind.fallback → a.key = b.key → a.kind = EmitKind.closed

/-- `seen_keys` holds exactly the keys of the still-open and fallback records
emitted so far. -/
def SeenMatches (st : BatchState) : Prop :=
  ∀ k, k ∈ st.seen_keys ↔
    ∃ r ∈ st.wip_records, r.key = k ∧ r.kind ≠ EmitKind.closed

/-- Loop invariant of `parse_wip_ranges`: the seen-key bookkeeping matches
the emitted records, at most one fallback record exists per key, and no
fallback record is preceded by a non-closed record with its key. -/
def BatchInv (st : BatchState) : Prop :=
  SeenMatches st ∧ (∀ k, fallbackCount k st.wip_records ≤ 1) ∧
    st.wip_records.Pairwise EmitOrder

/-! ## Helper lemmas -/

/-- On a one-record list the census count is 1 or 0 according to the
containment test. -/
lemma wip_count_on_singleton (r : WipRecord) (d : Int) :
    wip_count_on [r] d = if r.start ≤ d ∧ d ≤ r.stop then 1 else 0 := by
  by_cases h : r.start ≤ d ∧ d ≤ r.stop <;> simp [wip_count_on, h]

/-- For a single record, the census counts sum to the number of sampled
instants that the record's interval contains. -/
lemma sum_counts_singleton (r : WipRecord) (l : List Int) :
    (l.map (fun d => wip_count_on [r] d)).sum =
      (l.filter (fun d => decide (r.start ≤ d ∧ d ≤ r.stop))).length := by
  induction l with
  | nil => rfl
  | cons d l ih =>
    rcases Decidable.em (r.start ≤ d ∧ d ≤ r.stop) with h | h
    · have h1 : wip_count_on [r] d = 1 := by simp [wip_count_on_singleton, h]
      have h2 :
          List.filter (fun d => decide (r.start ≤ d ∧ d ≤ r.stop)) (d :: l) =
            d :: List.filter (fun d => decide (r.start ≤ d ∧ d ≤ r.stop)) l := by
        simp [List.filter_cons, h]
      rw [List.map_cons, List.sum_cons, h1, h2, List.length_cons, ih]
      omega
    · have h1 : wip_count_on [r] d = 0 := by simp [wip_count_on_singleton, h]
      have h2 :
          List.filter (fun d => decide (r.start ≤ d ∧ d ≤ r.stop)) (d :: l) =
            List.filter (fun d => decide (r.start ≤ d ∧ d ≤ r.stop)) l := by
        simp [List.filter_cons, h]
      rw [List.map_cons, List.sum_cons, h1, h2, ih]
      omega

/-- The selection loop of `get_issues_in_progress_in_month` keeps exactly
the records passing the closed overlap test. -/
lemma monthMatches_eq_filter (records : List WipRecord) (som eom : Int) :
    monthMatches records som eom =
      (records.filter (fun r => decide (r.start ≤ eom ∧ r.stop ≥ som))).map
        mkMonthRecord := by
  induction records with
  | nil => rfl
  | cons r rest ih =>
    by_cases h : r.start ≤ eom ∧ r.stop ≥ som <;>
      simp [monthMatches, List.filter_cons, h, ih]

/-! ## Claim theorems -/

/-- C1 (status: code_bug).  The claim asks for the intervals `[t1,t2]` and
`[t3,t4]`, no fallback and no diagnostic.  On the scenario
`[enter@10d, leave@12d, enter@14d]`, current status "In Progress",
`observation_end = 15d`, the code instead emits `[10d,12d]` plus a fallback
interval `[max(created, 15d-30d), 15d] = [0,15d]` and a diagnostic entry:
the walk sets `in_progress_end` at the first leave event and never resets
it, so the `# Still in progress` branch (which would emit `[14d,15d]`) is
unreachable after any closed interval, and the issue spills into the
fallback branch although its changelog holds full transition evidence. -/
theorem C1_reentry_gets_fallback_not_open_interval :
    parse_wip_ranges [issueEnterLeaveEnter] (15 * DAY) =
      Except.ok
        ([{ key := "A", summary := "s", assignee := none, start := 10 * DAY,
            stop := 12 * DAY, kind := EmitKind.closed },
          { key := "A", summary := "s", assignee := none, start := 0,
            stop := 15 * DAY, kind := EmitKind.fallback }],
         [("A", "s")]) := rfl

/-- C2 counterexample.  The issue's changelog `[enter@10d, leave@12d]`
contains an explicit event entering the tracked status, and an explicit
closed interval is emitted for it, yet (because the current status is
"In Progress" and `seen_keys` is only populated by the still-open and
fallback branches) a fallback interval is additionally produced, together
with a diagnostic entry. -/
theorem C2_closed_interval_then_fallback :
    parse_wip_ranges [issueEnterLeave] (20 * DAY) =
      Except.ok
        ([{ key := "B", summary := "s", assignee := none, start := 10 * DAY,
            stop := 12 * DAY, kind := EmitKind.closed },
          { key := "B", summary := "s", assignee := none, start := 0,
            stop := 20 * DAY, kind := EmitKind.fallback }],
         [("B", "s")]) ∧
    (∃ e ∈ issueEnterLeave.changelog, ∃ it ∈ e.items,
      it.toString = some "In Progress") :=
  ⟨rfl, by decide⟩

/-- C3 counterexample.  `threeDayRecord` spans the three calendar days
0, 1, 2 (midnight of day 0 to midnight of day 2), and the queried range
(5 days ending on day 3) fully contains it, yet the per-day counts sum to
2, not 3: the census samples each day at 23:59:59.999999, an instant the
interval does not contain on its last day. -/
theorem C3_three_day_interval_sums_to_two :
    ((daily_wip_counts [threeDayRecord] 4 (3 * DAY + 5)).map Prod.snd).sum ≠ 3 ∧
    ((daily_wip_counts [threeDayRecord] 4 (3 * DAY + 5)).map Prod.snd).sum = 2 := by
  constructor <;> decide

/-- C3 as amended: the census has exactly one entry per calendar day
(`days_lookback + 1` of them); the count paired with each sampled instant
is the number of records whose interval contains that instant; and for a
single record the counts sum to the number of sampled instants inside the
record's interval (not to the number of calendar days it touches). -/
theorem C3_daily_census_counts (records : List WipRecord) (lookback : Nat)
    (now : Int) :
    (daily_wip_counts records lookback now).length = lookback + 1 ∧
    (∀ p ∈ daily_wip_counts records lookback now,
      p.2 = wip_count_on records p.1) ∧
    (∀ r : WipRecord,
      ((daily_wip_counts [r] lookback now).map Prod.snd).sum =
        ((daily_date_range (replaceEndOfDay now) lookback).filter
          (fun d => decide (r.start ≤ d ∧ d ≤ r.stop))).length) := by
  refine ⟨?_, ?_, ?_⟩
  · unfold daily_wip_counts daily_date_range
    rw [List.length_map, List.length_map, List.length_range]
  · intro p hp
    simp only [daily_wip_counts, List.mem_map] at hp
    obtain ⟨d, _, rfl⟩ := hp
    rfl
  · intro r
    simp only [daily_wip_counts, List.map_map]
    exact sum_counts_singleton r _

/-- Witness for `C3_daily_census_counts` at concrete inputs. -/
theorem C3_daily_census_counts_witness :
    (daily_wip_counts [] 0 0).length = 0 + 1 ∧
    (0 : Nat) = wip_count_on [] (DAY - 1) ∧
    ((daily_wip_counts [threeDayRecord] 4 (3 * DAY + 5)).map Prod.snd).sum =
      ((daily_date_range (replaceEndOfDay (3 * DAY + 5)) 4).filter
        (fun d => decide (threeDayRecord.start ≤ d ∧ d ≤ threeDayRecord.stop))).length :=
  ⟨(C3_daily_census_counts [] 0 0).1,
   (C3_daily_census_counts [] 0 0).2.1 (DAY - 1, 0) (by decide),
   (C3_daily_census_counts [threeDayRecord] 4 (3 * DAY + 5)).2.2 threeDayRecord⟩

/-- C4 counterexample.  A batch holding one well-formed issue (which alone
yields intervals) and one issue whose changelog entry lacks a timestamp:
the whole extraction fails, so the well-formed issue's intervals are not
returned — the malformed event is not contained per-issue. -/
theorem C4_malformed_event_aborts_batch :
    parse_wip_ranges [issueEnterLeave, issueMissingTimestamp] (20 * DAY) =
      Except.error "KeyError: created" ∧
    parse_wip_ranges [issueEnterLeave] (20 * DAY) =
      Except.ok
        ([{ key := "B", summary := "s", assignee := none, start := 10 * DAY,
            stop := 12 * DAY, kind := EmitKind.closed },
          { key := "B", summary := "s", assignee := none, start := 0,
            stop := 20 * DAY, kind := EmitKind.fallback }],
         [("B", "s")]) :=
  ⟨rfl, rfl⟩

/-- C5 (status: code_bug).  Batch extraction over zero issues returns empty
collections, but the window-overlap query with zero matching intervals does
not return an empty result: `pd.DataFrame([])` has no columns, so
`df.sort_values("in_progress_start")` raises `KeyError` — both for an empty
record set and for a nonempty one entirely disjoint from the window —
contradicting the function's own docstring, which promises a table of
matching issues. -/
theorem C5_empty_overlap_raises :
    parse_wip_ranges [] 0 = Except.ok ([], []) ∧
    get_issues_in_progress_in_month [] 0 (DAY - 1) =
      Except.error "KeyError: in_progress_start" ∧
    get_issues_in_progress_in_month
      [{ key := "A", summary := "s", assignee := none, start := 50 * DAY,
         stop := 60 * DAY, kind := EmitKind.closed }] 0 (DAY - 1) =
      Except.error "KeyError: in_progress_start" :=
  ⟨rfl, rfl, rfl⟩

/-- C6 counterexample.  The daily census called twice with identical
explicit inputs (`wip_records`, `days_lookback`) but at two different
wall-clock instants returns different results: the range end is read from
the clock inside the function, not supplied by the caller. -/
theorem C6_census_depends_on_clock :
    daily_wip_counts [] 0 0 ≠ daily_wip_counts [] 0 DAY := by decide

/-- C6 as amended: interval extraction and the window-overlap query take
their whole observation window as explicit parameters, and the census

depends on the internally read clock instant only through the calendar day
it falls on: two clock reads with the same end-of-day truncation give
identical output. -/
theorem C6_census_same_day_deterministic (records : List WipRecord)
    (lookback : Nat) (now₁ now₂ : Int)
    (h : replaceEndOfDay now₁ = replaceEndOfDay now₂) :
    daily_wip_counts records lookback now₁ =
      daily_wip_counts records lookback now₂ := by
  unfold daily_wip_counts
  rw [h]

/-- Witness for `C6_census_same_day_deterministic`: two clock reads within
the same calendar day. -/
theorem C6_census_same_day_deterministic_witness :
    daily_wip_counts [] 0 5 = daily_wip_counts [] 0 7 :=
  C6_census_same_day_deterministic [] 0 5 7 (by decide)

/-- C7: for an issue with an empty changelog, extraction yields exactly one
inferred interval `[max(created, end - 30d), end]` plus a diagnostic entry
when the current status is the tracked status, and nothing at all
otherwise. -/
theorem C7_empty_changelog (key summary : String) (assignee : Option String)
    (status : Option String) (c e : Int) :
    (status = some "In Progress" →
      parse_wip_ranges [{ key := key, summary := summary, assignee := assignee,
                          status := status, created := c, changelog := [] }] e =
        Except.ok
          ([{ key := key, summary := summary, assignee := assignee,
              start := max c (e - 30 * DAY), stop := e,
              kind := EmitKind.fallback }], [(key, summary)])) ∧
    (status ≠ some "In Progress" →
      parse_wip_ranges [{ key := key, summary := summary, assignee := assignee,
                          status := status, created := c, changelog := [] }] e =
        Except.ok ([], [])) := by
  constructor
  · intro h
    subst h
    rfl
  · intro h
    simp [parse_wip_ranges, parse_wip_ranges_loop, processIssue, entryTimestamps,
      sortEntries, walkChangelog, stillOpenRecord, afterOpenState, applyFallback, h]

/-- Witness for `C7_empty_changelog` at concrete inputs (tracked branch). -/
theorem C7_empty_changelog_witness :
    parse_wip_ranges [{ key := "W", summary := "w", assignee := none,
                        status := some "In Progress", created := 3 * DAY,
                        changelog := [] }] (20 * DAY) =
      Except.ok
        ([{ key := "W", summary := "w", assignee := none,
            start := max (3 * DAY) (20 * DAY - 30 * DAY), stop := 20 * DAY,
            kind := EmitKind.fallback }], [("W", "w")]) :=
  (C7_empty_changelog "W" "w" none (some "In Progress") (3 * DAY) (20 * DAY)).1 rfl

/-- C8: the window-overlap query selects a record exactly when
`start <= end_of_month` and `end >= start_of_month` (closed test); a
single-instant touch at either boundary counts ([5,10] against [10,15] and
[0,5]), and exactly the disjoint intervals are excluded. -/
theorem C8_overlap_selection :
    (∀ (records : List WipRecord) (som eom : Int),
      monthMatches records som eom =
        (records.filter (fun r => decide (r.start ≤ eom ∧ r.stop ≥ som))).map
          mkMonthRecord) ∧
    (∀ (r : WipRecord) (som eom : Int),
      (r.start ≤ eom ∧ r.stop ≥ som) ↔ ¬(r.stop < som ∨ r.start > eom)) ∧
    monthMatches [intervalFiveTen] 10 15 = [mkMonthRecord intervalFiveTen] ∧
    monthMatches [intervalFiveTen] 0 5 = [mkMonthRecord intervalFiveTen] ∧
    monthMatches [intervalFiveTen] 11 15 = [] ∧
    monthMatches [intervalFiveTen] 0 4 = [] := by
  refine ⟨monthMatches_eq_filter, ?_, rfl, rfl, rfl, rfl⟩
  intro r som eom
  omega

/-- Membership in an insertion is membership in the old list or equality
with the inserted element. -/
lemma mem_insertEntry {x a : Int × List ChangelogItem} :
    ∀ {l : List (Int × List ChangelogItem)},
      a ∈ insertEntry x l ↔ a = x ∨ a ∈ l := by
  intro l
  induction l with
  | nil => simp [insertEntry]
  | cons y ys ih =>
    unfold insertEntry
    split
    · simp only [List.mem_cons, ih]
      tauto
    · simp only [List.mem_cons]

/-- Inserting into a timestamp-sorted list keeps it sorted. -/
lemma insertEntry_pairwise {x : Int × List ChangelogItem}
    {l : List (Int × List ChangelogItem)}
    (h : l.Pairwise (fun a b => a.1 ≤ b.1)) :
    (insertEntry x l).Pairwise (fun a b => a.1 ≤ b.1) := by
  induction l with
  | nil => simp [insertEntry]
  | cons y ys ih =>
    rw [List.pairwise_cons] at h
    unfold insertEntry
    split
    · rw [List.pairwise_cons]
      refine ⟨?_, ih h.2⟩
      intro b hb
      rcases mem_insertEntry.mp hb with rfl | hb
      · assumption
      · exact h.1 b hb
    · rw [List.pairwise_cons]
      constructor
      · intro b hb
        rcases List.mem_cons.mp hb with rfl | hb
        · omega
        · have := h.1 b hb
          omega
      · rw [List.pairwise_cons]
        exact h

/-- The stable sort returns a timestamp-sorted list. -/
lemma sortEntries_pairwise (l : List (Int × List ChangelogItem)) :
    (sortEntries l).Pairwise (fun a b => a.1 ≤ b.1) := by
  unfold sortEntries
  suffices h : ∀ acc : List (Int × List ChangelogItem),
      acc.Pairwise (fun a b => a.1 ≤ b.1) →
      (l.foldl (fun acc x => insertEntry x acc) acc).Pairwise
        (fun a b => a.1 ≤ b.1) by
    exact h [] (by simp)
  induction l with
  | nil => intro acc hacc; exact hacc
  | cons x xs ih =>
    intro acc hacc
    exact ih (insertEntry x acc) (insertEntry_pairwise hacc)

/-- Every element of the sorted list comes from the input list. -/
lemma mem_sortEntries {a : Int × List ChangelogItem}
    {l : List (Int × List ChangelogItem)} (h : a ∈ sortEntries l) : a ∈ l := by
  unfold sortEntries at h
  suffices hgen : ∀ acc : List (Int × List ChangelogItem),
      a ∈ l.foldl (fun acc x => insertEntry x acc) acc → a ∈ acc ∨ a ∈ l by
    rcases hgen [] h with hc | hc
    · cases hc
    · exact hc
  clear h
  induction l with
  | nil => intro acc h; exact Or.inl h
  | cons x xs ih =>
    intro acc h
    rcases ih (insertEntry x acc) h with hc | hc
    · rcases mem_insertEntry.mp hc with rfl | hc
      · exact Or.inr (List.mem_cons_self _ _)
      · exact Or.inl hc
    · exact Or.inr (List.mem_cons_of_mem _ hc)

/-- Every timestamp delivered by `entryTimestamps` comes from an entry of
the changelog. -/
lemma entryTimestamps_some_mem :
    ∀ {changelog : List ChangelogEntry}
      {entries : List (Int × List ChangelogItem)},
      entryTimestamps changelog = some entries →
      ∀ x ∈ entries, ∃ ent ∈ changelog, ent.created = some x.1 := by
  intro changelog
  induction changelog with
  | nil =>
    intro entries h x hx
    unfold entryTimestamps at h
    cases h
    cases hx
  | cons e rest ih =>
    intro entries h x hx
    unfold entryTimestamps at h
    split at h
    · rename_i t l hcreated hrest
      cases h
      rcases List.mem_cons.mp hx with rfl | hx
      · exact ⟨e, List.mem_cons_self _ _, hcreated⟩
      · obtain ⟨ent, hm, hc⟩ := ih hrest x hx
        exact ⟨ent, List.mem_cons_of_mem _ hm, hc⟩
    · cases h

/-- A changelog entry with no timestamp makes `entryTimestamps` fail. -/
lemma entryTimestamps_none_of_bad :
    ∀ {changelog : List ChangelogEntry},
      (∃ ent ∈ changelog, ent.created = none) →
      entryTimestamps changelog = none := by
  intro changelog
  induction changelog with
  | nil =>
    rintro ⟨ent, hm, _⟩
    cases hm
  | cons e rest ih =>
    rintro ⟨ent, hm, hc⟩
    unfold entryTimestamps
    rcases List.mem_cons.mp hm with rfl | hm
    · rw [hc]
    · rw [ih ⟨ent, hm, hc⟩]
      rcases h2 : e.created with _ | t <;> rfl

/-- Any record present after one item step was already there, or is the
closed record just emitted, whose start is the pending entry pointer and
whose stop is the entry timestamp. -/
lemma processItem_recs (issue : Issue) (ts : Int) (s : WalkState)
    (item : ChangelogItem) :
    ∀ r ∈ (processItem issue ts s item).recs,
      r ∈ s.recs ∨
        (r.kind = EmitKind.closed ∧ r.key = issue.key ∧
          r.summary = issue.summary ∧
          ∃ t0, s.inProgressStart = some t0 ∧ r.start = t0 ∧ r.stop = ts) := by
  intro r hr
  unfold processItem at hr
  split at hr
  · split at hr
    · exact Or.inl hr
    · split at hr
      · rename_i st hst
        split at hr
        · simp only [List.mem_append, List.mem_singleton] at hr
          rcases hr with hr | rfl
          · exact Or.inl hr
          · exact Or.inr ⟨rfl, rfl, rfl, st, hst, rfl, rfl⟩
        · exact Or.inl hr
      · exact Or.inl hr
  · exact Or.inl hr

/-- After one item step the entry pointer is unchanged or equals the entry
timestamp. -/
lemma processItem_start (issue : Issue) (ts : Int) (s : WalkState)
    (item : ChangelogItem) :
    ∀ t, (processItem issue ts s item).inProgressStart = some t →
      s.inProgressStart = some t ∨ t = ts := by
  intro t ht
  unfold processItem at ht
  split at ht
  · split at ht
    · cases ht
      exact Or.inr rfl
    · split at ht
      · split at ht
        · cases ht
        · exact Or.inl ht
      · exact Or.inl ht
  · exact Or.inl ht

/-- After the item loop of one entry the entry pointer is unchanged or
equals the entry timestamp. -/
lemma itemsFold_start (issue : Issue) (ts : Int) :
    ∀ (items : List ChangelogItem) (s : WalkState) (t : Int),
      (items.foldl (processItem issue ts) s).inProgressStart = some t →
      s.inProgressStart = some t ∨ t = ts := by
  intro items
  induction items with
  | nil => intro s t ht; exact Or.inl ht
  | cons item items ih =>
    intro s t ht
    rcases ih (processItem issue ts s item) t ht with hc | hc
    · exact processItem_start issue ts s item t hc
    · exact Or.inr hc

/-- The item loop of one entry only adds closed records carrying the
issue's key and summary. -/
lemma itemsFold_closed (issue : Issue) (ts : Int) :
    ∀ (items : List ChangelogItem) (s : WalkState),
      (∀ r ∈ s.recs, r.kind = EmitKind.closed ∧ r.key = issue.key ∧
        r.summary = issue.summary) →
      ∀ r ∈ (items.foldl (processItem issue ts) s).recs,
        r.kind = EmitKind.closed ∧ r.key = issue.key ∧
          r.summary = issue.summary := by
  intro items
  induction items with
  | nil => intro s hs; exact hs
  | cons item items ih =>
    intro s hs
    refine ih (processItem issue ts s item) ?_
    intro r hr
    rcases processItem_recs issue ts s item r hr with hc | hc
    · exact hs r hc
    · exact ⟨hc.1, hc.2.1, hc.2.2.1⟩

/-- If the pending entry pointer is bounded by the entry timestamp, all
records present after the item loop are well formed. -/
lemma itemsFold_good (issue : Issue) (ts : Int) :
    ∀ (items : List ChangelogItem) (s : WalkState),
      (∀ r ∈ s.recs, r.start ≤ r.stop) →
      (∀ t, s.inProgressStart = some t → t ≤ ts) →
      ∀ r ∈ (items.foldl (processItem issue ts) s).recs, r.start ≤ r.stop := by
  intro items
  induction items with
  | nil => intro s hs _; exact hs
  | cons item items ih =>
    intro s hs hstart
    refine ih (processItem issue ts s item) ?_ ?_
    · intro r hr
      rcases processItem_recs issue ts s item r hr with hc | hc
      · exact hs r hc
      · obtain ⟨_, _, _, t0, ht0, hstart_eq, hstop_eq⟩ := hc
        rw [hstart_eq, hstop_eq]
        exact hstart t0 ht0
    · intro t ht
      rcases processItem_start issue ts s item t ht with hc | hc
      · exact hstart t hc
      · omega

/-- The entry loop over a sorted, bounded entry list yields only records
with `start <= stop`, and leaves an entry pointer bounded by the
observation end. -/
lemma entriesFold_good (issue : Issue) (e : Int) :
    ∀ (entries : List (Int × List ChangelogItem)) (s : WalkState),
      entries.Pairwise (fun a b => a.1 ≤ b.1) →
      (∀ x ∈ entries, x.1 ≤ e) →
      (∀ r ∈ s.recs, r.start ≤ r.stop) →
      (∀ t, s.inProgressStart = some t → t ≤ e ∧ ∀ x ∈ entries, t ≤ x.1) →
      (∀ r ∈ (entries.foldl (processEntry issue) s).recs, r.start ≤ r.stop) ∧
      (∀ t, (entries.foldl (processEntry issue) s).inProgressStart = some t →
        t ≤ e) := by
  intro entries
  induction entries with
  | nil =>
    intro s _ _ hrecs hstart
    exact ⟨hrecs, fun t ht => (hstart t ht).1⟩
  | cons x rest ih =>
    intro s hpw hle hrecs hstart
    rw [List.pairwise_cons] at hpw
    have hstep : ∀ r ∈ (processEntry issue s x).recs, r.start ≤ r.stop := by
      refine itemsFold_good issue x.1 x.2 s hrecs ?_
      intro t ht
      exact (hstart t ht).2 x (List.mem_cons_self _ _)
    have hstep_start : ∀ t, (processEntry issue s x).inProgressStart = some t →
        t ≤ e ∧ ∀ y ∈ rest, t ≤ y.1 := by
      intro t ht
      rcases itemsFold_start issue x.1 x.2 s t ht with hc | hc
      · obtain ⟨h1, h2⟩ := hstart t hc
        exact ⟨h1, fun y hy => h2 y (List.mem_cons_of_mem _ hy)⟩
      · subst hc
        exact ⟨hle x (List.mem_cons_self _ _), hpw.1⟩
    simpa using ih (processEntry issue s x) hpw.2
      (fun y hy => hle y (List.mem_cons_of_mem _ hy)) hstep hstep_start

/-- The changelog walk only emits closed records carrying the issue's key
and summary. -/
lemma walk_recs_closed (issue : Issue)
    (entries : List (Int × List ChangelogItem)) :
    ∀ r ∈ (walkChangelog issue entries).recs,
      r.kind = EmitKind.closed ∧ r.key = issue.key ∧
        r.summary = issue.summary := by
  unfold walkChangelog
  suffices hgen : ∀ (l : List (Int × List ChangelogItem)) (s : WalkState),
      (∀ r ∈ s.recs, r.kind = EmitKind.closed ∧ r.key = issue.key ∧
        r.summary = issue.summary) →
      ∀ r ∈ (l.foldl (processEntry issue) s).recs,
        r.kind = EmitKind.closed ∧ r.key = issue.key ∧
          r.summary = issue.summary by
    exact hgen entries ⟨none, none, []⟩ (by intro r hr; cases hr)
  intro l
  induction l with
  | nil => intro s hs; exact hs
  | cons x rest ih =>
    intro s hs
    exact ih (processEntry issue s x) (itemsFold_closed issue x.1 x.2 s hs)

/-- On a sorted entry list whose timestamps are bounded by `e`, the walk
yields well-formed records and an entry pointer bounded by `e`. -/
lemma walkChangelog_good (issue : Issue) (e : Int)
    (entries : List (Int × List ChangelogItem))
    (hpw : entries.Pairwise (fun a b => a.1 ≤ b.1))
    (hle : ∀ x ∈ entries, x.1 ≤ e) :
    (∀ r ∈ (walkChangelog issue entries).recs, r.start ≤ r.stop) ∧
    (∀ t, (walkChangelog issue entries).inProgressStart = some t → t ≤ e) := by
  unfold walkChangelog
  refine entriesFold_good issue e entries ⟨none, none, []⟩ hpw hle ?_ ?_
  · intro r hr; cases hr
  · intro t ht; cases ht

/-- `fallbackCount` distributes over append. -/
lemma fallbackCount_append (k : String) (a b : List WipRecord) :
    fallbackCount k (a ++ b) = fallbackCount k a + fallbackCount k b := by
  simp [fallbackCount, List.filter_append]

/-- A list with no fallback record for `k` has `fallbackCount` zero. -/
lemma fallbackCount_zero {k : String} {recs : List WipRecord}
    (h : ∀ r ∈ recs, ¬(r.kind = EmitKind.fallback ∧ r.key = k)) :
    fallbackCount k recs = 0 := by
  unfold fallbackCount
  rw [List.length_eq_zero, List.filter_eq_nil_iff]
  intro r hr
  simpa using h r hr

/-- A non-fallback singleton contributes nothing to `fallbackCount`. -/
lemma fallbackCount_single_other {k : String} {r : WipRecord}
    (h : r.kind ≠ EmitKind.fallback) : fallbackCount k [r] = 0 := by
  refine fallbackCount_zero ?_
  intro r' hr'
  rcases List.mem_singleton.mp hr' with rfl
  exact fun hc => h hc.1

/-- A singleton with a different key contributes nothing to
`fallbackCount`. -/
lemma fallbackCount_single_ne_key {k : String} {r : WipRecord}
    (h : r.key ≠ k) : fallbackCount k [r] = 0 := by
  refine fallbackCount_zero ?_
  intro r' hr'
  rcases List.mem_singleton.mp hr' with rfl
  exact fun hc => h hc.2

/-- A fallback singleton for `k` contributes exactly one. -/
lemma fallbackCount_single_self {k : String} {r : WipRecord}
    (h1 : r.kind = EmitKind.fallback) (h2 : r.key = k) :
    fallbackCount k [r] = 1 := by
  simp [fallbackCount, h1, h2]

/-- A list with no fallback records is `EmitOrder`-pairwise for free. -/
lemma pairwise_emitOrder_of_no_fallback {l : List WipRecord}
    (h : ∀ b ∈ l, b.kind ≠ EmitKind.fallback) : l.Pairwise EmitOrder := by
  induction l with
  | nil => exact List.Pairwise.nil
  | cons a l ih =>
    rw [List.pairwise_cons]
    refine ⟨?_, ih (fun b hb => h b (List.mem_cons_of_mem _ hb))⟩
    intro b hb hf _
    exact absurd hf (h b (List.mem_cons_of_mem _ hb))

/-- The still-open block emits nothing, or exactly one still-open record
whose start is the pending entry pointer. -/
lemma stillOpenRecord_cases (issue : Issue) (e : Int) (w : WalkState) :
    stillOpenRecord issue e w = [] ∨
    ∃ st, w.inProgressStart = some st ∧
      stillOpenRecord issue e w = [openRecord issue e st] := by
  unfold stillOpenRecord
  split
  · rename_i st hst _
    split
    · exact Or.inr ⟨st, hst, rfl⟩
    · exact Or.inl rfl
  · exact Or.inl rfl

/-- Appending closed records preserves all three invariant components. -/
lemma inv_extend_closed
    {recs new : List WipRecord} {seen : List String}
    (hnew : ∀ r ∈ new, r.kind = EmitKind.closed)
    (hseen : ∀ k, k ∈ seen ↔
      ∃ r ∈ recs, r.key = k ∧ r.kind ≠ EmitKind.closed)
    (hcount : ∀ k, fallbackCount k recs ≤ 1)
    (hpw : recs.Pairwise EmitOrder) :
    (∀ k, k ∈ seen ↔
      ∃ r ∈ recs ++ new, r.key = k ∧ r.kind ≠ EmitKind.closed) ∧
    (∀ k, fallbackCount k (recs ++ new) ≤ 1) ∧
    (recs ++ new).Pairwise EmitOrder := by
  refine ⟨?_, ?_, ?_⟩
  · intro k
    rw [hseen k]
    constructor
    · rintro ⟨r, hr, hkey, hkind⟩
      exact ⟨r, List.mem_append_left _ hr, hkey, hkind⟩
    · rintro ⟨r, hr, hkey, hkind⟩
      rcases List.mem_append.mp hr with hr | hr
      · exact ⟨r, hr, hkey, hkind⟩
      · exact absurd (hnew r hr) hkind
  · intro k
    rw [fallbackCount_append]
    have h0 : fallbackCount k new = 0 := by
      refine fallbackCount_zero ?_
      intro r hr hc
      exact absurd ((hnew r hr).symm.trans hc.1) (by decide)
    have := hcount k
    omega
  · rw [List.pairwise_append]
    refine ⟨hpw, ?_, ?_⟩
    · refine pairwise_emitOrder_of_no_fallback ?_
      intro b hb
      rw [hnew b hb]
      decide
    · intro a _ b hb hf _
      exact absurd ((hnew b hb).symm.trans hf) (by decide)

/-- Appending closed records plus one still-open record, while adding its
key to the seen set, preserves all three invariant components. -/
lemma inv_extend_open
    {recs new : List WipRecord} {seen : List String} (orec : WipRecord)
    (hnew : ∀ r ∈ new, r.kind = EmitKind.closed)
    (hok : orec.kind = EmitKind.stillOpen)
    (hseen : ∀ k, k ∈ seen ↔
      ∃ r ∈ recs, r.key = k ∧ r.kind ≠ EmitKind.closed)
    (hcount : ∀ k, fallbackCount k recs ≤ 1)
    (hpw : recs.Pairwise EmitOrder) :
    (∀ k, k ∈ orec.key :: seen ↔
      ∃ r ∈ recs ++ new ++ [orec], r.key = k ∧ r.kind ≠ EmitKind.closed) ∧
    (∀ k, fallbackCount k (recs ++ new ++ [orec]) ≤ 1) ∧
    (recs ++ new ++ [orec]).Pairwise EmitOrder := by
  refine ⟨?_, ?_, ?_⟩
  · intro k
    constructor
    · intro hk
      rcases List.mem_cons.mp hk with rfl | hk
      · exact ⟨orec, by simp, rfl, by rw [hok]; decide⟩
      · obtain ⟨r, hr, hkey, hkind⟩ := (hseen k).mp hk
        exact ⟨r, by simp [hr], hkey, hkind⟩
    · rintro ⟨r, hr, hkey, hkind⟩
      simp only [List.append_assoc, List.mem_append, List.mem_singleton] at hr
      rcases hr with hr | hr | rfl
      · exact List.mem_cons_of_mem _ ((hseen k).mpr ⟨r, hr, hkey, hkind⟩)
      · exact absurd (hnew r hr) hkind
      · exact hkey ▸ List.mem_cons_self _ _
  · intro k
    rw [fallbackCount_append, fallbackCount_append]
    have h0 : fallbackCount k new = 0 := by
      refine fallbackCount_zero ?_
      intro r hr hc
      exact absurd ((hnew r hr).symm.trans hc.1) (by decide)
    have h1 : fallbackCount k [orec] = 0 :=
      fallbackCount_single_other (by rw [hok]; decide)
    have := hcount k
    omega
  · rw [List.pairwise_append, List.pairwise_append]
    refine ⟨⟨hpw, ?_, ?_⟩, List.pairwise_singleton _ _, ?_⟩
    · refine pairwise_emitOrder_of_no_fallback ?_
      intro b hb
      rw [hnew b hb]
      decide
    · intro a _ b hb hf _
      exact absurd ((hnew b hb).symm.trans hf) (by decide)
    · intro a _ b hb hf _
      rcases List.mem_singleton.mp hb with rfl
      exact absurd (hok.symm.trans hf) (by decide)

/-- Appending one fallback record whose key is not yet seen, while adding
its key to the seen set, preserves all three invariant components. -/
lemma inv_extend_fallback
    {recs : List WipRecord} {seen : List String} (fb : WipRecord)
    (hfb : fb.kind = EmitKind.fallback)
    (hnotseen : fb.key ∉ seen)
    (hseen : ∀ k, k ∈ seen ↔
      ∃ r ∈ recs, r.key = k ∧ r.kind ≠ EmitKind.closed)
    (hcount : ∀ k, fallbackCount k recs ≤ 1)
    (hpw : recs.Pairwise EmitOrder) :
    (∀ k, k ∈ fb.key :: seen ↔
      ∃ r ∈ recs ++ [fb], r.key = k ∧ r.kind ≠ EmitKind.closed) ∧
    (∀ k, fallbackCount k (recs ++ [fb]) ≤ 1) ∧
    (recs ++ [fb]).Pairwise EmitOrder := by
  have hclosed : ∀ r ∈ recs, r.key = fb.key → r.kind = EmitKind.closed := by
    intro r hr hkey
    by_contra hk
    exact hnotseen ((hseen fb.key).mpr ⟨r, hr, hkey, hk⟩)
  refine ⟨?_, ?_, ?_⟩
  · intro k
    constructor
    · intro hk
      rcases List.mem_cons.mp hk with rfl | hk
      · exact ⟨fb, by simp, rfl, by rw [hfb]; decide⟩
      · obtain ⟨r, hr, hkey, hkind⟩ := (hseen k).mp hk
        exact ⟨r, by simp [hr], hkey, hkind⟩
    · rintro ⟨r, hr, hkey, hkind⟩
      simp only [List.mem_append, List.mem_singleton] at hr
      rcases hr with hr | rfl
      · exact List.mem_cons_of_mem _ ((hseen k).mpr ⟨r, hr, hkey, hkind⟩)
      · exact hkey ▸ List.mem_cons_self _ _
  · intro k
    rw [fallbackCount_append]
    by_cases hk : fb.key = k
    · have hrec0 : fallbackCount k recs = 0 := by
        refine fallbackCount_zero ?_
        intro r hr hc
        have := hclosed r hr (hc.2.trans hk.symm)
        exact absurd (this.symm.trans hc.1) (by decide)
      have h1 : fallbackCount k [fb] = 1 := fallbackCount_single_self hfb hk
      omega
    · have h1 : fallbackCount k [fb] = 0 := fallbackCount_single_ne_key hk
      have := hcount k
      omega
  · rw [List.pairwise_append]
    refine ⟨hpw, List.pairwise_singleton _ _, ?_⟩
    intro a ha b hb _ hkey
    rcases List.mem_singleton.mp hb with rfl
    exact hclosed a ha hkey

/-- The still-open block preserves the batch invariant. -/
lemma afterOpen_inv {e : Int} {acc : BatchState} {issue : Issue}
    {w : WalkState} (hw : ∀ r ∈ w.recs, r.kind = EmitKind.closed)
    (hinv : BatchInv acc) : BatchInv (afterOpenState e acc issue w) := by
  obtain ⟨hseen, hcount, hpw⟩ := hinv
  rcases stillOpenRecord_cases issue e w with hO | ⟨st, hst, hO⟩
  · unfold BatchInv SeenMatches afterOpenState
    rw [hO]
    simp only [List.append_nil, if_pos]
    exact inv_extend_closed hw hseen hcount hpw
  · unfold BatchInv SeenMatches afterOpenState
    rw [hO]
    rw [if_neg (by simp)]
    exact inv_extend_open (openRecord issue e st) hw rfl hseen hcount hpw

/-- The fallback block preserves the batch invariant. -/
lemma applyFallback_inv {e : Int} {issue : Issue} {st : BatchState}
    (hinv : BatchInv st) : BatchInv (applyFallback e issue st) := by
  obtain ⟨hseen, hcount, hpw⟩ := hinv
  unfold applyFallback
  split
  · rename_i hcond
    unfold BatchInv SeenMatches
    exact inv_extend_fallback (fallbackRecord issue e) rfl hcond.2 hseen hcount hpw
  · exact ⟨hseen, hcount, hpw⟩

/-- One issue step preserves the batch invariant. -/
lemma processIssue_inv {e : Int} {acc acc' : BatchState} {issue : Issue}
    (h : processIssue e acc issue = Except.ok acc') (hinv : BatchInv acc) :
    BatchInv acc' := by
  unfold processIssue at h
  split at h
  · simp at h
  · injection h with h
    subst h
    exact applyFallback_inv
      (afterOpen_inv (fun r hr => (walk_recs_closed issue _ r hr).1) hinv)

/-- The empty accumulators satisfy the batch invariant. -/
lemma batchInv_init : BatchInv ⟨[], [], []⟩ := by
  unfold BatchInv SeenMatches
  refine ⟨?_, ?_, List.Pairwise.nil⟩
  · intro k
    simp
  · intro k
    simp [fallbackCount]

/-- The issue loop preserves the batch invariant. -/
lemma loop_inv (e : Int) :
    ∀ (issues : List Issue) (acc acc' : BatchState),
      parse_wip_ranges_loop e issues acc = Except.ok acc' →
      BatchInv acc → BatchInv acc' := by
  intro issues
  induction issues with
  | nil =>
    intro acc acc' h hinv
    simp only [parse_wip_ranges_loop] at h
    injection h with h
    subst h
    exact hinv
  | cons issue rest ih =>
    intro acc acc' h hinv
    simp only [parse_wip_ranges_loop] at h
    rcases hp : processIssue e acc issue with msg | acc2
    · rw [hp] at h
      simp at h
    · rw [hp] at h
      exact ih acc2 acc' h (processIssue_inv hp hinv)

/-- Successful extraction comes from a successful loop run on the empty
accumulators. -/
lemma parse_wip_ranges_ok {issues : List Issue} {e : Int}
    {recs : List WipRecord} {missing : List (String × String)}
    (h : parse_wip_ranges issues e = Except.ok (recs, missing)) :
    ∃ st : BatchState,
      parse_wip_ranges_loop e issues ⟨[], [], []⟩ = Except.ok st ∧
      st.wip_records = recs ∧ st.missing_details = missing := by
  unfold parse_wip_ranges at h
  split at h
  · simp at h
  · rename_i st hst
    injection h with h2
    exact ⟨st, hst, congrArg Prod.fst h2, congrArg Prod.snd h2⟩

/-- In `EmitOrder`-pairwise output, every record before a fallback record
obeys `EmitOrder` with it. -/
lemma pairwise_prefix_emitOrder {recs l₁ l₂ : List WipRecord} {r : WipRecord}
    (hpw : recs.Pairwise EmitOrder) (heq : recs = l₁ ++ r :: l₂) :
    ∀ r' ∈ l₁, EmitOrder r' r := by
  subst heq
  rw [List.pairwise_append] at hpw
  exact fun r' hr' => hpw.2.2 r' hr' r (List.mem_cons_self _ _)

/-- Records present after the still-open block are old records, or carry the
issue's key and are not fallback records. -/
lemma afterOpen_origin {e : Int} {acc : BatchState} {issue : Issue}
    {w : WalkState}
    (hw : ∀ r ∈ w.recs, r.kind = EmitKind.closed ∧ r.key = issue.key) :
    ∀ r ∈ (afterOpenState e acc issue w).wip_records,
      r ∈ acc.wip_records ∨
        (r.key = issue.key ∧ r.kind ≠ EmitKind.fallback) := by
  intro r hr
  unfold afterOpenState at hr
  dsimp only at hr
  rcases List.mem_append.mp hr with hr | hr
  · rcases List.mem_append.mp hr with hr | hr
    · exact Or.inl hr
    · obtain ⟨hk, hkey⟩ := hw r hr
      refine Or.inr ⟨hkey, ?_⟩
      rw [hk]
      decide
  · rcases stillOpenRecord_cases issue e w with hO | ⟨st, hst, hO⟩
    · rw [hO] at hr
      cases hr
    · rw [hO] at hr
      rcases List.mem_singleton.mp hr with rfl
      exact Or.inr ⟨rfl, by simp [openRecord]⟩

/-- Records produced by one issue step are old records, or carry the issue's
key; new fallback records require the issue's current status to be the
tracked one. -/
lemma processIssue_origin {e : Int} {acc acc' : BatchState} {issue : Issue}
    (h : processIssue e acc issue = Except.ok acc') :
    ∀ r ∈ acc'.wip_records, r ∈ acc.wip_records ∨
      (r.key = issue.key ∧
        (r.kind = EmitKind.fallback → issue.status = some "In Progress")) := by
  unfold processIssue at h
  split at h
  · simp at h
  · injection h with h
    subst h
    intro r hr
    unfold applyFallback at hr
    split at hr
    · rename_i hcond
      dsimp only at hr
      rcases List.mem_append.mp hr with hr | hr
      · rcases afterOpen_origin
          (fun r hr => ⟨(walk_recs_closed issue _ r hr).1,
            (walk_recs_closed issue _ r hr).2.1⟩) r hr with hc | hc
        · exact Or.inl hc
        · exact Or.inr ⟨hc.1, fun hf => absurd hf hc.2⟩
      · rcases List.mem_singleton.mp hr with rfl
        exact Or.inr ⟨rfl, fun _ => hcond.1⟩
    · rcases afterOpen_origin
        (fun r hr => ⟨(walk_recs_closed issue _ r hr).1,
          (walk_recs_closed issue _ r hr).2.1⟩) r hr with hc | hc
      · exact Or.inl hc
      · exact Or.inr ⟨hc.1, fun hf => absurd hf hc.2⟩

/-- Loop version of `processIssue_origin`. -/
lemma loop_origin (e : Int) :
    ∀ (issues : List Issue) (acc acc' : BatchState),
      parse_wip_ranges_loop e issues acc = Except.ok acc' →
      ∀ r ∈ acc'.wip_records, r ∈ acc.wip_records ∨
        ∃ i ∈ issues, r.key = i.key ∧
          (r.kind = EmitKind.fallback → i.status = some "In Progress") := by
  intro issues
  induction issues with
  | nil =>
    intro acc acc' h r hr
    simp only [parse_wip_ranges_loop] at h
    injection h with h
    subst h
    exact Or.inl hr
  | cons issue rest ih =>
    intro acc acc' h r hr
    simp only [parse_wip_ranges_loop] at h
    rcases hp : processIssue e acc issue with msg | acc2
    · rw [hp] at h
      simp at h
    · rw [hp] at h
      rcases ih acc2 acc' h r hr with hc | ⟨i, hi, hc⟩
      · rcases processIssue_origin hp r hc with hc2 | hc2
        · exact Or.inl hc2
        · exact Or.inr ⟨issue, List.mem_cons_self _ _, hc2⟩
      · exact Or.inr ⟨i, List.mem_cons_of_mem _ hi, hc⟩

/-- The still-open block preserves well-formedness of all records, given
well-formed walk output and a bounded entry pointer. -/
lemma afterOpen_wellformed {e : Int} {acc : BatchState} (issue : Issue)
    {w : WalkState}
    (hacc : ∀ r ∈ acc.wip_records, r.start ≤ r.stop)
    (hwrecs : ∀ r ∈ w.recs, r.start ≤ r.stop)
    (hwstart : ∀ t, w.inProgressStart = some t → t ≤ e) :
    ∀ r ∈ (afterOpenState e acc issue w).wip_records, r.start ≤ r.stop := by
  intro r hr
  unfold afterOpenState at hr
  dsimp only at hr
  rcases List.mem_append.mp hr with hr | hr
  · rcases List.mem_append.mp hr with hr | hr
    · exact hacc r hr
    · exact hwrecs r hr
  · rcases stillOpenRecord_cases issue e w with hO | ⟨st, hst, hO⟩
    · rw [hO] at hr
      cases hr
    · rw [hO] at hr
      rcases List.mem_singleton.mp hr with rfl
      exact hwstart st hst

/-- One issue step preserves well-formedness of all records when the
observation end bounds the issue's creation time and all its event
timestamps. -/
lemma processIssue_wellformed {e : Int} {acc acc' : BatchState}
    {issue : Issue}
    (h : processIssue e acc issue = Except.ok acc')
    (hcreated : issue.created ≤ e)
    (hts : ∀ ent ∈ issue.changelog, ∀ t, ent.created = some t → t ≤ e)
    (hacc : ∀ r ∈ acc.wip_records, r.start ≤ r.stop) :
    ∀ r ∈ acc'.wip_records, r.start ≤ r.stop := by
  unfold processIssue at h
  split at h
  · simp at h
  · rename_i entries hentries
    injection h with h
    subst h
    have hle : ∀ x ∈ sortEntries entries, x.1 ≤ e := by
      intro x hx
      obtain ⟨ent, hm, hc⟩ :=
        entryTimestamps_some_mem hentries x (mem_sortEntries hx)
      exact hts ent hm x.1 hc
    obtain ⟨hwrecs, hwstart⟩ := walkChangelog_good issue e (sortEntries entries)
      (sortEntries_pairwise entries) hle
    have hafter := afterOpen_wellformed issue hacc hwrecs hwstart
    intro r hr
    unfold applyFallback at hr
    split at hr
    · dsimp only at hr
      rcases List.mem_append.mp hr with hr | hr
      · exact hafter r hr
      · rcases List.mem_singleton.mp hr with rfl
        have h30 : e - 30 * DAY ≤ e := by unfold DAY; omega
        exact max_le hcreated h30
    · exact hafter r hr

/-- Loop version of `processIssue_wellformed`. -/
lemma loop_wellformed (e : Int) :
    ∀ (issues : List Issue) (acc acc' : BatchState),
      parse_wip_ranges_loop e issues acc = Except.ok acc' →
      (∀ i ∈ issues, i.created ≤ e) →
      (∀ i ∈ issues, ∀ ent ∈ i.changelog, ∀ t, ent.created = some t → t ≤ e) →
      (∀ r ∈ acc.wip_records, r.start ≤ r.stop) →
      ∀ r ∈ acc'.wip_records, r.start ≤ r.stop := by
  intro issues
  induction issues with
  | nil =>
    intro acc acc' h _ _ hacc
    simp only [parse_wip_ranges_loop] at h
    injection h with h
    subst h
    exact hacc
  | cons issue rest ih =>
    intro acc acc' h h1 h2 hacc
    simp only [parse_wip_ranges_loop] at h
    rcases hp : processIssue e acc issue with msg | acc2
    · rw [hp] at h
      simp at h
    · rw [hp] at h
      refine ih acc2 acc' h (fun i hi => h1 i (List.mem_cons_of_mem _ hi))
        (fun i hi => h2 i (List.mem_cons_of_mem _ hi)) ?_
      exact processIssue_wellformed hp (h1 issue (List.mem_cons_self _ _))
        (h2 issue (List.mem_cons_self _ _)) hacc

/-- The only exception `processIssue` raises is the sort's `KeyError`. -/
lemma processIssue_error_msg {e : Int} {acc : BatchState} {issue : Issue}
    {msg : String} (h : processIssue e acc issue = Except.error msg) :
    msg = "KeyError: created" := by
  unfold processIssue at h
  split at h
  · injection h with h
    exact h.symm
  · simp at h

/-- A missing timestamp anywhere in the batch aborts the whole loop. -/
lemma loop_bad (e : Int) :
    ∀ (issues : List Issue) (acc : BatchState),
      (∃ i ∈ issues, ∃ ent ∈ i.changelog, ent.created = none) →
      parse_wip_ranges_loop e issues acc = Except.error "KeyError: created" := by
  intro issues
  induction issues with
  | nil =>
    rintro acc ⟨i, hi, -⟩
    cases hi
  | cons issue rest ih =>
    rintro acc ⟨i, hi, hbad⟩
    simp only [parse_wip_ranges_loop]
    rcases List.mem_cons.mp hi with rfl | hi
    · have hp : processIssue e acc i = Except.error "KeyError: created" := by
        unfold processIssue
        rw [entryTimestamps_none_of_bad hbad]
      rw [hp]
    · rcases hp : processIssue e acc issue with msg | acc2
      · rw [processIssue_error_msg hp]
      · exact ih acc2 ⟨i, hi, hbad⟩

/-- C2 as amended: per batch run, at most one fallback (inferred) interval
is emitted per distinct issue key, and a fallback interval is emitted only
for an issue whose current status is the tracked status.  (The original
claim's further condition — that no explicit entering event may exist and
that no explicit interval may have been emitted — does not hold; see the
counterexample.) -/
theorem C2_at_most_one_fallback_per_key (issues : List Issue) (e : Int)
    (recs : List WipRecord) (missing : List (String × String))
    (h : parse_wip_ranges issues e = Except.ok (recs, missing)) :
    (∀ k, fallbackCount k recs ≤ 1) ∧
    (∀ r ∈ recs, r.kind = EmitKind.fallback →
      ∃ i ∈ issues, r.key = i.key ∧ i.status = some "In Progress") := by
  obtain ⟨st, hloop, hrecs, -⟩ := parse_wip_ranges_ok h
  subst hrecs
  have hinv := loop_inv e issues ⟨[], [], []⟩ st hloop batchInv_init
  refine ⟨hinv.2.1, ?_⟩
  intro r hr hf
  rcases loop_origin e issues ⟨[], [], []⟩ st hloop r hr with hc | ⟨i, hi, hkey, himp⟩
  · cases hc
  · exact ⟨i, hi, hkey, himp hf⟩

/-- Witness for `C2_at_most_one_fallback_per_key` on a concrete batch. -/
theorem C2_at_most_one_fallback_per_key_witness :
    fallbackCount "B" [closedRecordB, fallbackRecordB] ≤ 1 :=
  (C2_at_most_one_fallback_per_key [issueEnterLeave] (20 * DAY)
    [closedRecordB, fallbackRecordB] [("B", "s")] (by rfl)).1 "B"

/-- C10: within one batch run, at most one fallback interval is emitted per
distinct issue key — even when several issue records share a key — and a
fallback record is never preceded in the output by a still-open record with
the same key (the still-open branch inserts the key into the
batch-shared `seen_keys` set, which guards the fallback branch). -/
theorem C10_fallback_dedup_across_batch (issues : List Issue) (e : Int)
    (recs : List WipRecord) (missing : List (String × String))
    (h : parse_wip_ranges issues e = Except.ok (recs, missing)) :
    (∀ k, fallbackCount k recs ≤ 1) ∧
    (∀ l₁ r l₂, recs = l₁ ++ r :: l₂ → r.kind = EmitKind.fallback →
      ∀ r' ∈ l₁, r'.key = r.key → r'.kind ≠ EmitKind.stillOpen) := by
  obtain ⟨st, hloop, hrecs, -⟩ := parse_wip_ranges_ok h
  subst hrecs
  have hinv := loop_inv e issues ⟨[], [], []⟩ st hloop batchInv_init
  refine ⟨hinv.2.1, ?_⟩
  intro l₁ r l₂ heq hf r' hr' hkey
  have hclosed := pairwise_prefix_emitOrder hinv.2.2 heq r' hr' hf hkey
  rw [hclosed]
  decide

/-- Witness for `C10_fallback_dedup_across_batch` on a concrete batch whose
output holds a closed record followed by a fallback record. -/
theorem C10_fallback_dedup_across_batch_witness :
    closedRecordB.kind ≠ EmitKind.stillOpen :=
  (C10_fallback_dedup_across_batch [issueEnterLeave] (20 * DAY)
      [closedRecordB, fallbackRecordB] [("B", "s")] (by rfl)).2
    [closedRecordB] fallbackRecordB [] rfl rfl closedRecordB (by decide) rfl

/-- C4 as amended: a status event with a missing timestamp anywhere in the
batch makes the whole extraction fail with the sort's `KeyError` — the
malformed event is not contained per-issue, and no other issue's intervals
are returned. -/
theorem C4_missing_timestamp_fails_whole_batch (issues : List Issue) (e : Int)
    (hbad : ∃ i ∈ issues, ∃ ent ∈ i.changelog, ent.created = none) :
    parse_wip_ranges issues e = Except.error "KeyError: created" := by
  unfold parse_wip_ranges
  rw [loop_bad e issues ⟨[], [], []⟩ hbad]

/-- Witness for `C4_missing_timestamp_fails_whole_batch`. -/
theorem C4_missing_timestamp_fails_whole_batch_witness :
    parse_wip_ranges [issueMissingTimestamp] 0 =
      Except.error "KeyError: created" :=
  C4_missing_timestamp_fails_whole_batch [issueMissingTimestamp] 0 (by decide)

/-- C9 counterexample.  The claim's precondition only bounds the event
timestamps used by the caller, and an issue with an empty changelog
satisfies it vacuously; but if such an issue was created after the
observation end and is currently in the tracked status, the fallback
interval has `start = created > observation_end = end`, violating
`start <= end`. -/
theorem C9_created_after_window_end :
    parse_wip_ranges [issueCreatedLate] 0 =
      Except.ok
        ([{ key := "C", summary := "s", assignee := none, start := DAY,
            stop := 0, kind := EmitKind.fallback }], [("C", "s")]) ∧
    (DAY : Int) > 0 :=
  ⟨rfl, by decide⟩

/-- C9 as amended: when the observation end bounds every event timestamp
AND every issue's creation time, every produced interval — closed,
still-open, or fallback — satisfies `start <= stop` (zero-duration
intervals are allowed). -/
theorem C9_intervals_well_formed (issues : List Issue) (e : Int)
    (recs : List WipRecord) (missing : List (String × String))
    (h1 : ∀ i ∈ issues, i.created ≤ e)
    (h2 : ∀ i ∈ issues, ∀ ent ∈ i.changelog, ∀ t, ent.created = some t → t ≤ e)
    (h : parse_wip_ranges issues e = Except.ok (recs, missing)) :
    ∀ r ∈ recs, r.start ≤ r.stop := by
  obtain ⟨st, hloop, hrecs, -⟩ := parse_wip_ranges_ok h
  subst hrecs
  refine loop_wellformed e issues ⟨[], [], []⟩ st hloop h1 h2 ?_
  intro r hr
  cases hr

/-- Witness for `C9_intervals_well_formed` at a concrete issue. -/
theorem C9_intervals_well_formed_witness :
    ({ key := "C", summary := "s", assignee := none, start := DAY,
       stop := 2 * DAY, kind := EmitKind.fallback } : WipRecord).start ≤
      ({ key := "C", summary := "s", assignee := none, start := DAY,
         stop := 2 * DAY, kind := EmitKind.fallback } : WipRecord).stop :=
  C9_intervals_well_formed [issueCreatedLate] (2 * DAY)
    [{ key := "C", summary := "s", assignee := none, start := DAY,
       stop := 2 * DAY, kind := EmitKind.fallback }] [("C", "s")]
    (by
      intro i hi
      rcases List.mem_singleton.mp hi with rfl
      decide)
    (by
      intro i hi ent hent t ht
      rcases List.mem_singleton.mp hi with rfl
      simp [issueCreatedLate] at hent)
    (by rfl)
    { key := "C", summary := "s", assignee := none, start := DAY,
      stop := 2 * DAY, kind := EmitKind.fallback }
    (by decide)
